import Mathlib

/-!
Verification of the hi_telos Beat Orchestrator core: the in-memory intent
queue, the directory-based durable record store, the bounded retry helper,
the SP usage index, the two-tier memory rollup, and the orchestrator's
ingest and drain loops.

The file system is modelled as a list of files, each a path (list of
components) with a string content; `fs::rename` becomes a pure update that
fails when the source path is absent.  External collaborators (the serde
YAML parser, UUID generation, wall-clock time, and the reasoning agent) are
passed in as function parameters.  Timestamps are natural numbers;
`f32` alignment scores are rationals, which carry the same ordering
behaviour for the single comparison the code performs.
-/

/-! ## File system model -/

abbrev FPath := List String

structure FsFile where
  path : FPath
  content : String
deriving Repr, DecidableEq

abbrev Fs := List FsFile

/-- Whether a file with the given path exists. -/
def fsHasPath (fs : Fs) (p : FPath) : Bool :=
  fs.any (fun f => decide (f.path = p))

/-- `std::fs::rename`: moves the file at `src` to `dst`; errors when the
source does not exist. -/
def fsRename (fs : Fs) (src dst : FPath) : Except String Fs :=
  match fs.find? (fun f => decide (f.path = src)) with
  | some f => .ok ({ path := dst, content := f.content } :: fs.eraseP (fun g => decide (g.path = src)))
  | none => .error "rename: source file does not exist"

instance {e a : Type} [DecidableEq e] [DecidableEq a] : DecidableEq (Except e a)
  | .ok x, .ok y =>
    if h : x = y then .isTrue (by rw [h]) else .isFalse (fun hh => h (by injection hh))
  | .ok _, .error _ => .isFalse (fun hh => by injection hh)
  | .error _, .ok _ => .isFalse (fun hh => by injection hh)
  | .error x, .error y =>
    if h : x = y then .isTrue (by rw [h]) else .isFalse (fun hh => h (by injection hh))

/-! ## Data model (crates/hi_telos/src/tasks/mod.rs) -/

structure Intent where
  id : Nat
  source : String
  summary : String
  telos_alignment : ℚ
  created_at : Nat
  storage_path : Option FPath
deriving Repr, DecidableEq

structure IntentQueue where
  items : List Intent
deriving Repr, DecidableEq

def IntentQueue.push (q : IntentQueue) (intent : Intent) : IntentQueue :=
  ⟨q.items ++ [intent]⟩

def IntentQueue.push_front (q : IntentQueue) (intent : Intent) : IntentQueue :=
  ⟨intent :: q.items⟩

def IntentQueue.pop_next (q : IntentQueue) : Option Intent × IntentQueue :=
  match q.items with
  | [] => (none, q)
  | x :: rest => (some x, ⟨rest⟩)

def IntentQueue.len (q : IntentQueue) : Nat :=
  q.items.length

/-- Drains the queue by repeated `pop_next`, returning the pop order. -/
def IntentQueue.drain_go : Nat → IntentQueue → List Intent
  | 0, _ => []
  | n + 1, q =>
    match q.pop_next with
    | (none, _) => []
    | (some i, q') => i :: IntentQueue.drain_go n q'

def IntentQueue.drain_all (q : IntentQueue) : List Intent :=
  IntentQueue.drain_go q.len q

def IntentQueue.push_all (q : IntentQueue) (xs : List Intent) : IntentQueue :=
  xs.foldl IntentQueue.push q

/-! ## Directory layout (crates/hi_telos/src/storage/mod.rs) -/

def inbox_dir (data_dir : FPath) : FPath := data_dir ++ ["intent", "inbox"]

def queue_dir (data_dir : FPath) : FPath := data_dir ++ ["intent", "queue"]

def deferred_dir (data_dir : FPath) : FPath := data_dir ++ ["intent", "inbox", "deferred"]

def failed_dir (data_dir : FPath) : FPath := data_dir ++ ["intent", "queue", "failed"]

def history_dir (data_dir : FPath) : FPath := data_dir ++ ["intent", "history"]

/-! ## Relocation primitives (storage/mod.rs, promote/defer/quarantine/archive) -/

/-- `promote_to_queue`: moves an intent file into the "queue" directory,
preserving the file name, and returns the destination. -/
def promote_to_queue (path : FPath) (data_dir : FPath) (fs : Fs) : Except String (Fs × FPath) :=
  match path.getLast? with
  | none => .error "intent path missing file name"
  | some name =>
    match fsRename fs path (queue_dir data_dir ++ [name]) with
    | .ok fs' => .ok (fs', queue_dir data_dir ++ [name])
    | .error e => .error e

/-- `defer_intent`: moves an intent file into the "deferred" directory. -/
def defer_intent (path : FPath) (data_dir : FPath) (fs : Fs) : Except String (Fs × FPath) :=
  match path.getLast? with
  | none => .error "intent path missing file name"
  | some name =>
    match fsRename fs path (deferred_dir data_dir ++ [name]) with
    | .ok fs' => .ok (fs', deferred_dir data_dir ++ [name])
    | .error e => .error e

/-- `quarantine_failed_intent`: moves an intent file into the "failed"
subdirectory of the queue directory. -/
def quarantine_failed_intent (path : FPath) (data_dir : FPath) (fs : Fs) : Except String (Fs × FPath) :=
  match path.getLast? with
  | none => .error "intent path missing file name"
  | some name =>
    match fsRename fs path (failed_dir data_dir ++ [name]) with
    | .ok fs' => .ok (fs', failed_dir data_dir ++ [name])
    | .error e => .error e

/-- `archive_intent`: moves the intent's file to "history"; a no-op returning
success when the intent has no storage path or the file no longer exists. -/
def archive_intent (intent : Intent) (data_dir : FPath) (fs : Fs) : Except String Fs :=
  match intent.storage_path with
  | none => .ok fs
  | some path =>
    if fsHasPath fs path then
      match path.getLast? with
      | none => .error "intent path missing file name"
      | some name => fsRename fs path (history_dir data_dir ++ [name])
    else
      .ok fs

/-! ## Stable sorting

Rust's `sort_by` is a stable sort; a stable sort's result is determined by
the comparator alone, so the model uses a structurally recursive stable
insertion sort. -/

/-- Insert `a` before the first element it compares at-or-before, keeping
`a` ahead of elements that tie with it (stability for the newly inserted
element relative to later ones). -/
def stable_insert {α : Type} (le : α → α → Bool) (a : α) : List α → List α
  | [] => [a]
  | b :: t => if le a b then a :: b :: t else b :: stable_insert le a t

/-- Stable insertion sort by a boolean total preorder. -/
def insertion_sort {α : Type} (le : α → α → Bool) : List α → List α
  | [] => []
  | x :: xs => stable_insert le x (insertion_sort le xs)

/-! ## Intake scanning (storage/mod.rs, scan_inbox / scan_queue / scan_intent_dir) -/

structure IntentFrontMatter where
  id : Option Nat := none
  source : Option String := none
  summary : Option String := none
  telos_alignment : Option ℚ := none
  created_at : Option Nat := none
deriving Repr, DecidableEq

structure IntentRecord where
  path : FPath
  intent : Intent
deriving Repr, DecidableEq

/-- Whether the character list starts with the given pattern. -/
def chars_start_with : List Char → List Char → Bool
  | [], _ => true
  | _ :: _, [] => false
  | p :: ps, c :: cs => p == c && chars_start_with ps cs

/-- Everything before the first occurrence of `sep`, or the whole list when
`sep` does not occur (the behaviour of `str::find` followed by slicing, and
of taking the first element of `split`). -/
def chars_before_first (sep : List Char) : List Char → List Char
  | [] => []
  | c :: cs =>
    if chars_start_with sep (c :: cs) then [] else c :: chars_before_first sep cs

/-- `str::trim` over the character list. -/
def trim_chars (l : List Char) : List Char :=
  ((l.dropWhile Char.isWhitespace).reverse.dropWhile Char.isWhitespace).reverse

/-- The front-matter block extraction in `parse_intent_front_matter`: the
text between the leading `---` fence and the closing `\n---`, or (without a
fence) the text up to the first blank line.  Implemented over the string's
character list so the model evaluates by reduction. -/
def extract_front_matter_block (content : String) : String :=
  let trimmed := content.data.dropWhile Char.isWhitespace
  if chars_start_with ['-', '-', '-'] trimmed then
    let rest := (trimmed.drop 3).dropWhile (fun c => c == '\n' || c == '\r')
    ⟨chars_before_first ['\n', '-', '-', '-'] rest⟩
  else
    ⟨chars_before_first ['\n', '\n'] trimmed⟩

/-- `parse_intent_front_matter`; the serde YAML deserializer is an external
collaborator and is passed in as `yamlParse`. -/
def parse_intent_front_matter (yamlParse : String → Except String IntentFrontMatter)
    (content : String) : Except String IntentFrontMatter :=
  let yaml_block := extract_front_matter_block content
  if (trim_chars yaml_block.data).isEmpty then .ok {} else yamlParse yaml_block

/-- A path is a direct child of `dir` (one extra component).  `read_dir` is
not recursive, and entries that are not regular files (such as the `failed`
subdirectory of the queue directory) fail the `is_file` check and are
skipped, so only direct-child files are scanned. -/
def is_child_file (dir : FPath) (p : FPath) : Bool :=
  decide (p.length = dir.length + 1) && decide (p.take dir.length = dir)

def dir_files (fs : Fs) (dir : FPath) : List FsFile :=
  fs.filter (fun f => is_child_file dir f.path)

/-- `Path::file_stem` of a file name: the name with its final extension
stripped (the whole name when there is nothing before the last dot). -/
def file_stem (name : String) : String :=
  match name.data.reverse.dropWhile (fun c => !(c == '.')) with
  | [] => name
  | _ :: restRev => if restRev.isEmpty then name else ⟨restRev.reverse⟩

/-- The record built for one scanned file: front-matter fields with
generated defaults when absent.  `freshId` stands for `Uuid::new_v4` and
`now` for `Utc::now`; the default summary is the file stem. -/
def scan_record (freshId : FPath → Nat) (now : Nat) (f : FsFile)
    (fm : IntentFrontMatter) : IntentRecord :=
  let stem := match f.path.getLast? with
    | some name => file_stem name
    | none => "intent"
  { path := f.path,
    intent :=
      { id := fm.id.getD (freshId f.path)
        source := fm.source.getD "unknown"
        summary := fm.summary.getD stem
        telos_alignment := fm.telos_alignment.getD 0
        created_at := fm.created_at.getD now
        storage_path := some f.path } }

/-- The error propagation of one loop iteration of `scan_intent_dir`: the
`?` on the front-matter parse aborts the whole scan, as does an error from
the rest of the loop. -/
def scan_step (pm : Except String IntentFrontMatter)
    (restRes : Except String (List IntentRecord)) (freshId : FPath → Nat) (now : Nat)
    (f : FsFile) : Except String (List IntentRecord) :=
  match pm with
  | .error e => .error e
  | .ok fm =>
    match restRes with
    | .error e => .error e
    | .ok records => .ok (scan_record freshId now f fm :: records)

/-- The per-file loop of `scan_intent_dir`: parse each file's front matter
(with `?`, so a parse error aborts the whole scan) and build an
`IntentRecord` per file. -/
def scan_intent_dir_go (yamlParse : String → Except String IntentFrontMatter)
    (freshId : FPath → Nat) (now : Nat) : List FsFile → Except String (List IntentRecord)
  | [] => .ok []
  | f :: rest =>
    scan_step (parse_intent_front_matter yamlParse f.content)
      (scan_intent_dir_go yamlParse freshId now rest) freshId now f

/-- `scan_intent_dir`: scan the direct-child files of a directory and sort
the records by creation time ascending (`sort_by_key` is stable). -/
def scan_intent_dir (yamlParse : String → Except String IntentFrontMatter)
    (freshId : FPath → Nat) (now : Nat) (fs : Fs) (dir : FPath) :
    Except String (List IntentRecord) :=
  match scan_intent_dir_go yamlParse freshId now (dir_files fs dir) with
  | .error e => .error e
  | .ok records =>
    .ok (insertion_sort (fun a b => decide (a.intent.created_at ≤ b.intent.created_at)) records)

def scan_inbox (yamlParse : String → Except String IntentFrontMatter)
    (freshId : FPath → Nat) (now : Nat) (fs : Fs) (data_dir : FPath) :
    Except String (List IntentRecord) :=
  scan_intent_dir yamlParse freshId now fs (inbox_dir data_dir)

def scan_queue (yamlParse : String → Except String IntentFrontMatter)
    (freshId : FPath → Nat) (now : Nat) (fs : Fs) (data_dir : FPath) :
    Except String (List IntentRecord) :=
  scan_intent_dir yamlParse freshId now fs (queue_dir data_dir)

/-! ## SP usage index (storage/mod.rs, update_sp_index and helpers) -/

structure SpEntry where
  summary : String
  count : Nat
  last_seen : Nat
deriving Repr, DecidableEq

structure PersistedSpIndex where
  top_used : List SpEntry := []
  most_recent : List SpEntry := []
deriving Repr, DecidableEq

/-- The `iter_mut().find(...)` arm of `upsert_top_used`: bump the first
entry whose summary matches exactly; `none` when no entry matches. -/
def bump_first (summary : String) (now : Nat) : List SpEntry → Option (List SpEntry)
  | [] => none
  | e :: rest =>
    if e.summary = summary then
      some ({ e with count := e.count + 1, last_seen := now } :: rest)
    else
      (bump_first summary now rest).map (e :: ·)

/-- The `top_used` comparator: count descending, then recency descending. -/
def top_used_le (a b : SpEntry) : Bool :=
  decide (b.count < a.count ∨ (b.count = a.count ∧ b.last_seen ≤ a.last_seen))

/-- The `most_recent` comparator: recency descending. -/
def most_recent_le (a b : SpEntry) : Bool :=
  decide (b.last_seen ≤ a.last_seen)

/-- `if entries.len() > 10 { entries.truncate(10) }`. -/
def truncate_to_cap (entries : List SpEntry) : List SpEntry :=
  if entries.length > 10 then entries.take 10 else entries

def upsert_top_used (entries : List SpEntry) (summary : String) (now : Nat) : List SpEntry :=
  let updated := match bump_first summary now entries with
    | some l => l
    | none => entries ++ [({ summary := summary, count := 1, last_seen := now } : SpEntry)]
  truncate_to_cap (insertion_sort top_used_le updated)

def upsert_most_recent (entries : List SpEntry) (summary : String) (now : Nat) : List SpEntry :=
  let retained := entries.filter (fun e => decide (e.summary ≠ summary))
  let updated := retained ++ [{ summary := summary, count := 1, last_seen := now }]
  truncate_to_cap (insertion_sort most_recent_le updated)

/-! ## Agent contract (crates/hi_telos/src/agent/mod.rs, outcome shape only) -/

structure AgentStep where
  thought : String
  action : String
  observation : String
deriving Repr, DecidableEq

structure AgentOutcome where
  steps : List AgentStep
  final_answer : String
deriving Repr, DecidableEq

structure AgentRun where
  outcome : AgentOutcome
  llm_logs : List String
deriving Repr, DecidableEq

/-- The synthesized "intent ⇒ final answer" line keying the SP index. -/
def synthesized_summary (intent : Intent) (outcome : AgentOutcome) : String :=
  intent.summary ++ " ⇒ " ++ outcome.final_answer

def update_sp_index (index : PersistedSpIndex) (intent : Intent) (outcome : AgentOutcome)
    (now : Nat) : PersistedSpIndex :=
  let summary := synthesized_summary intent outcome
  { top_used := upsert_top_used index.top_used summary now
    most_recent := upsert_most_recent index.most_recent summary now }

/-! ## Memory rollup (crates/hi_telos/src/storage/memory.rs) -/

inductive MemoryLevel where
  | L1
  | L2
deriving Repr, DecidableEq

structure MemoryAnchor where
  label : String
  path : String
deriving Repr, DecidableEq

structure MemoryEntry where
  id : Nat
  level : MemoryLevel
  summary : String
  details : List String
  anchors : List MemoryAnchor
  tags : List String
  related_intents : List Nat
  created_at : Nat
  updated_at : Nat
deriving Repr, DecidableEq

/-- Append an element unless already present; together with a fold this is
the `HashSet::insert`-guarded `Vec::push` of the rollup (and, for tags and
related intents, a deterministic stand-in for `HashSet` contents, whose
iteration order the code leaves arbitrary). -/
def push_if_new {α : Type} [DecidableEq α] (acc : List α) (a : α) : List α :=
  if a ∈ acc then acc else acc ++ [a]

def dedup_union {α : Type} [DecidableEq α] (ls : List (List α)) : List α :=
  ls.foldl (fun acc l => l.foldl push_if_new acc) []

def bullet_detail (e : MemoryEntry) : String :=
  "• " ++ e.summary

/-- `rebuild_l2_for_day`: fold the day's L1 entries into one L2 entry.  The
day's parsed L1 entries and the previously persisted L2 entry (if its file
exists) are passed in; `none` when there are no L1 entries.  `freshId`
stands for `Uuid::new_v4` and `now` for `Utc::now`; `dateStr` is the
formatted calendar day. -/
def rebuild_l2_for_day (freshId : Nat) (now : Nat) (dateStr : String)
    (entries : List MemoryEntry) (existing : Option MemoryEntry) : Option MemoryEntry :=
  match entries with
  | [] => none
  | first :: _ =>
    let idCreated : Nat × Nat :=
      match existing with
      | some prev => (prev.id, prev.created_at)
      | none => (freshId, first.created_at)
    some
      { id := idCreated.1
        level := .L2
        summary := toString entries.length ++ " memories on " ++ dateStr
        details := (entries.take 6).map bullet_detail
        anchors := dedup_union (entries.map (·.anchors))
        tags := dedup_union (entries.map (·.tags))
        related_intents := dedup_union (entries.map (·.related_intents))
        created_at := idCreated.2
        updated_at := now }

/-! ## Retry helper (orchestrator/mod.rs, run_with_retry) -/

def STORAGE_RETRY_ATTEMPTS : Nat := 3

def STORAGE_RETRY_DELAY_MS : Nat := 200

/-- The retry loop: `remaining` counts attempts left, `attempt` numbers the
current invocation from 1, and `sleeps` records the delay slept before each
retry.  An `Err` with `remaining > 1` sleeps and retries; the final
attempt's error is returned unchanged. -/
def run_with_retry_go {E : Type} (operation : Nat → Except E Unit)
    (remaining attempt : Nat) (sleeps : List Nat) : Except E Unit × Nat × List Nat :=
  match operation attempt with
  | .ok () => (.ok (), attempt, sleeps)
  | .error e =>
    if remaining > 1 then
      run_with_retry_go operation (remaining - 1) (attempt + 1) (sleeps ++ [STORAGE_RETRY_DELAY_MS])
    else
      (.error e, attempt, sleeps)
termination_by remaining
decreasing_by omega

def run_with_retry {E : Type} (operation : Nat → Except E Unit) : Except E Unit × Nat × List Nat :=
  run_with_retry_go operation STORAGE_RETRY_ATTEMPTS 1 []

/-! ## Journal formatting (storage/mod.rs, append_journal_entry) -/

/-- `str::trim_end` over the character list. -/
def trim_end_str (s : String) : String :=
  ⟨(s.data.reverse.dropWhile Char.isWhitespace).reverse⟩

def trace_line (idx : Nat) (step : AgentStep) : String :=
  toString (idx + 1) ++ ". Thought: " ++ step.thought ++ "\n   Action: " ++ step.action ++
    "\n   Observation: " ++ step.observation ++ "\n"

def trace_block (steps : List AgentStep) : String :=
  String.join ((steps.enum).map (fun p => trace_line p.1 p.2))

def journal_entry_text (timeStr : String) (intent : Intent) (outcome : AgentOutcome) : String :=
  let trace := trace_block outcome.steps
  let trace := if trace.isEmpty then "(no ReAct steps recorded)\n" else trace
  "## " ++ timeStr ++ " — " ++ intent.summary ++ "\n\nIntent processed: " ++ intent.summary ++
    "\nFinal answer: " ++ outcome.final_answer ++ "\n\n### ReAct trace\n" ++ trim_end_str trace ++ "\n"

/-! ## Durable storage state and intent processing (orchestrator/mod.rs) -/

/-- The durable store touched by one beat: the intent files, the per-day LLM
log and journal appends, the SP index, and the two memory tiers (the per-day
L1 log and the day's L2 rollup). -/
structure Storage where
  fs : Fs
  llm_logs : List String
  journal : List String
  sp_index : PersistedSpIndex
  mem_l1 : List MemoryEntry
  mem_l2 : Option MemoryEntry
deriving Repr, DecidableEq

/-- `BeatOrchestrator::process_intent`: run the agent, then persist LLM
logs, the journal entry, the SP index update, and archive the intent file.
`agentResult` is the awaited reasoning collaborator call.  Each persistence
step is wrapped in `run_with_retry` in the code; the modelled storage
operations are deterministic, so each wrapped call reduces to its first
attempt.  Mirrors the code's in-place mutation: on failure the effects of
the steps already performed remain in the returned storage. -/
def process_intent (agentResult : Except String AgentRun) (timeStr : String) (now : Nat)
    (data_dir : FPath) (intent : Intent) (st : Storage) : Storage × Option String :=
  match agentResult with
  | .error e => (st, some e)
  | .ok run =>
    let st := { st with llm_logs := st.llm_logs ++ run.llm_logs }
    let st := { st with journal := st.journal ++ [journal_entry_text timeStr intent run.outcome] }
    let st := { st with sp_index := update_sp_index st.sp_index intent run.outcome now }
    match archive_intent intent data_dir st.fs with
    | .ok fs' => ({ st with fs := fs' }, none)
    | .error e => (st, some e)

/-! ## The drain loop (orchestrator/mod.rs, run_beat) -/

def INTENT_REQUEUE_ATTEMPTS : Nat := 3

/-- The per-pass failure counters, keyed by intent id. -/
def attempts_get (attempts : List (Nat × Nat)) (id : Nat) : Nat :=
  (attempts.lookup id).getD 0

def attempts_set (attempts : List (Nat × Nat)) (id : Nat) (n : Nat) : List (Nat × Nat) :=
  (id, n) :: attempts.eraseP (fun p => decide (p.1 = id))

def attempts_remove (attempts : List (Nat × Nat)) (id : Nat) : List (Nat × Nat) :=
  attempts.eraseP (fun p => decide (p.1 = id))

inductive DrainEvent where
  | succeeded (id : Nat)
  | requeued (id : Nat)
  | quarantined (id : Nat)
deriving Repr, DecidableEq

structure DrainResult where
  queue : IntentQueue
  attempts : List (Nat × Nat)
  storage : Storage
  events : List DrainEvent
deriving Repr, DecidableEq

/-- The drain loop of `run_beat`: pop until the queue is empty; on success
clear the intent's failure counter; on failure increment it, quarantining
the intent's file and dropping the intent once the counter reaches
`INTENT_REQUEUE_ATTEMPTS`, and otherwise pushing the intent back onto the
front of the queue.  A quarantine move error is only logged (the storage is
left unchanged).  `agent` is the reasoning collaborator, indexed by the
iteration counter `tick` and given the intent and the backlog size (the
queue length observed after the pop); `fuel` bounds the iteration count of
the source's unbounded `loop`. -/
def run_beat_drain (agent : Nat → Intent → Nat → Except String AgentRun) (timeStr : String)
    (now : Nat) (data_dir : FPath) :
    Nat → Nat → IntentQueue → List (Nat × Nat) → Storage → DrainResult
  | 0, _, q, attempts, st => ⟨q, attempts, st, []⟩
  | fuel + 1, tick, q, attempts, st =>
    match q.pop_next with
    | (none, q') => ⟨q', attempts, st, []⟩
    | (some intent, q') =>
      let backlog := q'.len
      let (st', err) := process_intent (agent tick intent backlog) timeStr now data_dir intent st
      match err with
      | none =>
        let attempts' := attempts_remove attempts intent.id
        let res := run_beat_drain agent timeStr now data_dir fuel (tick + 1) q' attempts' st'
        ⟨res.queue, res.attempts, res.storage, .succeeded intent.id :: res.events⟩
      | some _ =>
        let cnt := attempts_get attempts intent.id + 1
        let attempts' := attempts_set attempts intent.id cnt
        if cnt ≥ INTENT_REQUEUE_ATTEMPTS then
          let fs' := match intent.storage_path with
            | some p =>
              match quarantine_failed_intent p data_dir st'.fs with
              | .ok (fs2, _) => fs2
              | .error _ => st'.fs
            | none => st'.fs
          let attempts'' := attempts_remove attempts' intent.id
          let res := run_beat_drain agent timeStr now data_dir fuel (tick + 1) q' attempts'' { st' with fs := fs' }
          ⟨res.queue, res.attempts, res.storage, .quarantined intent.id :: res.events⟩
        else
          let res := run_beat_drain agent timeStr now data_dir fuel (tick + 1) (q'.push_front intent) attempts' st'
          ⟨res.queue, res.attempts, res.storage, .requeued intent.id :: res.events⟩

/-! ## Ingestion (orchestrator/mod.rs, ingest_inbox / load_existing_queue) -/

/-- The per-record loop of `ingest_inbox`: alignment at or above the
threshold promotes the record to the queue directory and pushes it (with its
new storage path) onto the in-memory queue; below the threshold defers it.
A relocation error stops the loop, mirroring the `?` early return while
keeping the effects already applied. -/
def ingest_records (threshold : ℚ) (data_dir : FPath) :
    List IntentRecord → Fs → IntentQueue → Fs × IntentQueue × Option String
  | [], fs, q => (fs, q, none)
  | r :: rest, fs, q =>
    if r.intent.telos_alignment ≥ threshold then
      match promote_to_queue r.path data_dir fs with
      | .ok (fs', dest) =>
        ingest_records threshold data_dir rest fs' (q.push { r.intent with storage_path := some dest })
      | .error e => (fs, q, some e)
    else
      match defer_intent r.path data_dir fs with
      | .ok (fs', _) => ingest_records threshold data_dir rest fs' q
      | .error e => (fs, q, some e)

/-- `BeatOrchestrator::ingest_inbox`: scan the inbox (a scan error aborts
the whole ingest with nothing done) and run the per-record loop. -/
def ingest_inbox (yamlParse : String → Except String IntentFrontMatter) (freshId : FPath → Nat)
    (now : Nat) (threshold : ℚ) (data_dir : FPath) (fs : Fs) (q : IntentQueue) :
    Fs × IntentQueue × Option String :=
  match scan_inbox yamlParse freshId now fs data_dir with
  | .error e => (fs, q, some e)
  | .ok records => ingest_records threshold data_dir records fs q

/-- `BeatOrchestrator::run_beat`: ingest (an ingest error is only logged),
then drain with a fresh per-pass attempts map. -/
def run_beat (yamlParse : String → Except String IntentFrontMatter) (freshId : FPath → Nat)
    (agent : Nat → Intent → Nat → Except String AgentRun) (timeStr : String) (now : Nat)
    (threshold : ℚ) (data_dir : FPath) (fuel : Nat) (q : IntentQueue) (st : Storage) : DrainResult :=
  let scanned := ingest_inbox yamlParse freshId now threshold data_dir st.fs q
  run_beat_drain agent timeStr now data_dir fuel 0 scanned.2.1 [] { st with fs := scanned.1 }

/-- `BeatOrchestrator::load_existing_queue`: rescan the queue directory at
startup and push every found record (with its storage path set) onto the
in-memory queue. -/
def load_existing_queue (yamlParse : String → Except String IntentFrontMatter)
    (freshId : FPath → Nat) (now : Nat) (data_dir : FPath) (fs : Fs) (q : IntentQueue) :
    IntentQueue × Option String :=
  match scan_queue yamlParse freshId now fs data_dir with
  | .error e => (q, some e)
  | .ok existing =>
    (existing.foldl (fun acc r => acc.push { r.intent with storage_path := some r.path }) q, none)

/-! ## Queue lemmas -/

/-! ## Concrete fixtures used by the witnesses and counterexamples -/

def c6_intent : Intent :=
  { id := 1, source := "cli", summary := "demo", telos_alignment := 1, created_at := 0,
    storage_path := some ["d", "intent", "queue", "a.md"] }

def c9_intent : Intent :=
  { id := 2, source := "telegram", summary := "a", telos_alignment := 1, created_at := 0,
    storage_path := none }

def c9_outcome : AgentOutcome := { steps := [], final_answer := "b" }

def c9_index : PersistedSpIndex :=
  { top_used := [{ summary := "a ⇒ b", count := 2, last_seen := 1 }], most_recent := [] }

def c7_l1 : MemoryEntry :=
  { id := 3, level := .L1, summary := "wrote report",
    details := ["Source: cli", "Final: done"], anchors := [], tags := ["cli"],
    related_intents := [3], created_at := 10, updated_at := 10 }

def c7_prior : MemoryEntry :=
  { id := 42, level := .L2, summary := "1 memories on 2025-01-01", details := [],
    anchors := [], tags := [], related_intents := [], created_at := 5, updated_at := 5 }

/-- Alignment admission test, as the code writes it. -/
def aligned (threshold : ℚ) (r : IntentRecord) : Bool :=
  decide (r.intent.telos_alignment ≥ threshold)

/-- The intent as pushed onto the queue after promotion: same fields, with
the storage path pointing at the queue directory. -/
def promoted (dd : FPath) (r : IntentRecord) : Intent :=
  { r.intent with storage_path := some (queue_dir dd ++ [r.path.getLastD ""]) }

def c1_rec1 : IntentRecord :=
  { path := ["d", "intent", "inbox", "a.md"],
    intent := { id := 11, source := "cli", summary := "one", telos_alignment := 2,
                created_at := 1, storage_path := some ["d", "intent", "inbox", "a.md"] } }

def c1_rec2 : IntentRecord :=
  { path := ["d", "intent", "inbox", "b.md"],
    intent := { id := 12, source := "cli", summary := "two", telos_alignment := 0,
                created_at := 2, storage_path := some ["d", "intent", "inbox", "b.md"] } }

def c1_fs : Fs :=
  [⟨["d", "intent", "inbox", "a.md"], "x"⟩, ⟨["d", "intent", "inbox", "b.md"], "y"⟩]

def c10_yp : String → Except String IntentFrontMatter := fun _ => .error "unused"

def c10_fresh : FPath → Nat := fun _ => 77

def c10_fs : Fs :=
  [⟨["d", "intent", "queue", "a.md"], "x"⟩, ⟨["d", "intent", "queue", "b.md"], ""⟩]

def c10_fs2 : Fs :=
  [⟨["d", "intent", "queue", "failed", "a.md"], "x"⟩, ⟨["d", "intent", "queue", "b.md"], ""⟩]

def c10_rec : IntentRecord := scan_record c10_fresh 3 ⟨["d", "intent", "queue", "b.md"], ""⟩ {}

def sample_yaml_parse : String → Except String IntentFrontMatter :=
  fun s => if s = "id: 1" then .ok { id := some 1 } else .error "invalid front matter"

def c3_fs : Fs :=
  [⟨["d", "intent", "inbox", "a.md"], "---\nid: 1\n---\nbody\n"⟩,
   ⟨["d", "intent", "inbox", "b.md"], "---\nbroken\n---\n"⟩]

def c3_r1 : IntentRecord :=
  { path := ["d", "intent", "inbox", "a.md"],
    intent := { id := 31, source := "cli", summary := "r1", telos_alignment := 2,
                created_at := 1, storage_path := some ["d", "intent", "inbox", "a.md"] } }

def c3_r2 : IntentRecord :=
  { path := ["d", "intent", "inbox", "b.md"],
    intent := { id := 32, source := "cli", summary := "r2", telos_alignment := 2,
                created_at := 2, storage_path := some ["d", "intent", "inbox", "b.md"] } }

def c3_fs2 : Fs := [⟨["d", "intent", "inbox", "b.md"], "x"⟩]

def c3_intent : Intent :=
  { id := 33, source := "timer", summary := "go", telos_alignment := 1, created_at := 0,
    storage_path := none }

def c3_run : AgentRun := { outcome := { steps := [], final_answer := "fine" }, llm_logs := [] }

def c3_storage : Storage :=
  { fs := c3_fs, llm_logs := [], journal := [], sp_index := {}, mem_l1 := [], mem_l2 := none }

def c8_intent : Intent :=
  { id := 21, source := "cli", summary := "do", telos_alignment := 1, created_at := 0,
    storage_path := some ["d", "intent", "queue", "c.md"] }

def c8_run : AgentRun :=
  { outcome := { steps := [], final_answer := "ok" }, llm_logs := ["log1"] }

def c8_storage : Storage :=
  { fs := [⟨["d", "intent", "queue", "c.md"], "x"⟩], llm_logs := [], journal := [],
    sp_index := {}, mem_l1 := [], mem_l2 := none }

def c2_intent : Intent :=
  { id := 41, source := "cli", summary := "always fails", telos_alignment := 1, created_at := 0,
    storage_path := some ["d", "intent", "queue", "f.md"] }

def c2_storage : Storage :=
  { fs := [⟨["d", "intent", "queue", "f.md"], "x"⟩], llm_logs := [], journal := [],
    sp_index := {}, mem_l1 := [], mem_l2 := none }

/-! ## Theorems -/

theorem IntentQueue.drain_go_items : ∀ (items : List Intent), IntentQueue.drain_go items.length ⟨items⟩ = items := by
  intro items
  induction items with
  | nil => rfl
  | cons x rest ih => simp [IntentQueue.drain_go, IntentQueue.pop_next, ih]

theorem IntentQueue.drain_all_eq_items (q : IntentQueue) : q.drain_all = q.items := by
  cases q with
  | mk items => exact IntentQueue.drain_go_items items

theorem IntentQueue.push_all_items : ∀ (xs : List Intent) (q : IntentQueue), (q.push_all xs).items = q.items ++ xs := by
  intro xs
  induction xs with
  | nil => intro q; simp [IntentQueue.push_all]
  | cons x rest ih =>
    intro q
    have : q.push_all (x :: rest) = (q.push x).push_all rest := rfl
    rw [this, ih]
    simp [IntentQueue.push]

/-- Claim C5: the Queue is FIFO for intents pushed in the same ingest pass
that never fail — draining a queue after pushing `xs` pops the prior
contents, then `xs` in push order — and an intent re-enqueued with
`push_front` after a failure sits at the front, so it is popped strictly
before every intent pushed after it failed. -/
theorem C5_queue_fifo_and_front_requeue :
    ∀ (q : IntentQueue) (x : Intent) (xs ys : List Intent),
      (q.push_all xs).drain_all = q.items ++ xs ∧
      (q.push_front x).pop_next = (some x, q) ∧
      ((q.push_front x).push_all ys).drain_all = x :: (q.items ++ ys) := by
  intro q x xs ys
  refine ⟨?_, ?_, ?_⟩
  · rw [IntentQueue.drain_all_eq_items, IntentQueue.push_all_items]
  · simp [IntentQueue.push_front, IntentQueue.pop_next]
  · rw [IntentQueue.drain_all_eq_items, IntentQueue.push_all_items]
    simp [IntentQueue.push_front]

/-! ## Retry helper lemmas -/

theorem run_with_retry_go_ok {E : Type} (op : Nat → Except E Unit) (r a : Nat) (s : List Nat)
    (h : op a = .ok ()) : run_with_retry_go op r a s = (.ok (), a, s) := by
  rw [run_with_retry_go, h]

theorem run_with_retry_go_err_retry {E : Type} (op : Nat → Except E Unit) (r a : Nat) (s : List Nat)
    (e : E) (h : op a = .error e) (hr : r > 1) :
    run_with_retry_go op r a s = run_with_retry_go op (r - 1) (a + 1) (s ++ [STORAGE_RETRY_DELAY_MS]) := by
  rw [run_with_retry_go, h]
  simp [hr]

theorem run_with_retry_go_err_last {E : Type} (op : Nat → Except E Unit) (a : Nat) (s : List Nat)
    (e : E) (h : op a = .error e) : run_with_retry_go op 1 a s = (.error e, a, s) := by
  rw [run_with_retry_go, h]
  simp

/-- Claim C4: the retry helper invokes the operation up to exactly 3 times,
returns `Ok` as soon as an attempt succeeds, sleeps the fixed 200ms delay
between attempts, propagates the 3rd attempt's result (hence its error)
unchanged, and never makes a 4th invocation (the final attempt number is at
most `STORAGE_RETRY_ATTEMPTS`). -/
theorem C4_run_with_retry_bounded :
    ∀ (E : Type) (op : Nat → Except E Unit),
      (op 1 = .ok () → run_with_retry op = (.ok (), 1, [])) ∧
      (∀ e, op 1 = .error e → op 2 = .ok () → run_with_retry op = (.ok (), 2, [STORAGE_RETRY_DELAY_MS])) ∧
      (∀ e1 e2, op 1 = .error e1 → op 2 = .error e2 →
        run_with_retry op = (op 3, 3, [STORAGE_RETRY_DELAY_MS, STORAGE_RETRY_DELAY_MS])) ∧
      (run_with_retry op).2.1 ≤ STORAGE_RETRY_ATTEMPTS := by
  intro E op
  refine ⟨?_, ?_, ?_, ?_⟩
  · intro h
    rw [run_with_retry, STORAGE_RETRY_ATTEMPTS, run_with_retry_go_ok op _ _ _ h]
  · intro e h1 h2
    rw [run_with_retry, STORAGE_RETRY_ATTEMPTS,
      run_with_retry_go_err_retry op 3 1 [] e h1 (by omega), run_with_retry_go_ok op _ _ _ h2]
    rfl
  · intro e1 e2 h1 h2
    rw [run_with_retry, STORAGE_RETRY_ATTEMPTS,
      run_with_retry_go_err_retry op 3 1 [] e1 h1 (by omega),
      run_with_retry_go_err_retry op 2 2 _ e2 h2 (by omega)]
    cases h3 : op 3 with
    | ok u =>
      cases u
      rw [run_with_retry_go_ok op _ _ _ h3]
      rfl
    | error e3 =>
      rw [run_with_retry_go_err_last op _ _ e3 h3]
      rfl
  · rw [run_with_retry, STORAGE_RETRY_ATTEMPTS]
    cases h1 : op 1 with
    | ok u => cases u; rw [run_with_retry_go_ok op _ _ _ h1]; simp
    | error e1 =>
      rw [run_with_retry_go_err_retry op 3 1 [] e1 h1 (by omega)]
      cases h2 : op 2 with
      | ok u => cases u; rw [run_with_retry_go_ok op _ _ _ h2]; simp
      | error e2 =>
        rw [run_with_retry_go_err_retry op 2 2 _ e2 h2 (by omega)]
        cases h3 : op 3 with
        | ok u => cases u; rw [run_with_retry_go_ok op _ _ _ h3]
        | error e3 => rw [run_with_retry_go_err_last op _ _ e3 h3]

/-- Witness for C4 at a concrete always-failing operation: all three
attempts fail, the third error is propagated unchanged after two fixed
sleeps. -/
theorem C4_run_with_retry_bounded_witness :
    ((fun _ => (.error "io" : Except String Unit)) 1 = .error "io") ∧
    run_with_retry (fun _ => (.error "io" : Except String Unit)) =
      ((fun _ => (.error "io" : Except String Unit)) 3, 3, [STORAGE_RETRY_DELAY_MS, STORAGE_RETRY_DELAY_MS]) :=
  ⟨rfl, (C4_run_with_retry_bounded String (fun _ => .error "io")).2.2.1 "io" "io" rfl rfl⟩

/-! ## File-system and archive lemmas -/

theorem fsRename_ok_of_has (fs : Fs) (src dst : FPath) (h : fsHasPath fs src = true) :
    ∃ fs', fsRename fs src dst = .ok fs' := by
  unfold fsRename
  cases hf : fs.find? (fun f => decide (f.path = src)) with
  | some f => exact ⟨_, rfl⟩
  | none =>
    exfalso
    rw [List.find?_eq_none] at hf
    rcases List.any_eq_true.mp h with ⟨f, hmem, hpred⟩
    exact hf f hmem hpred

theorem archive_intent_ok (intent : Intent) (dd : FPath) (fs : Fs) (p : FPath) (name : String)
    (hp : intent.storage_path = some p) (hn : p.getLast? = some name) :
    ∃ fs', archive_intent intent dd fs = .ok fs' := by
  cases hhas : fsHasPath fs p with
  | false => exact ⟨fs, by simp [archive_intent, hp, hhas]⟩
  | true =>
    rcases fsRename_ok_of_has fs p (history_dir dd ++ [name]) hhas with ⟨fs', hr⟩
    exact ⟨fs', by simp [archive_intent, hp, hhas, hn, hr]⟩

/-- Claim C6: `archive_intent` succeeds without error whenever the intent's
storage path is absent or its file no longer exists (returning the file
system unchanged), and — for any intent whose path has a file name —
invoking it twice in a row succeeds both times, the second call acting on
the already-moved file. -/
theorem C6_archive_idempotent_on_missing :
    ∀ (intent : Intent) (dd : FPath) (fs : Fs),
      (intent.storage_path = none → archive_intent intent dd fs = .ok fs) ∧
      (∀ p, intent.storage_path = some p → fsHasPath fs p = false →
        archive_intent intent dd fs = .ok fs) ∧
      (∀ p name, intent.storage_path = some p → p.getLast? = some name →
        ∃ fs', archive_intent intent dd fs = .ok fs' ∧
          ∃ fs'', archive_intent intent dd fs' = .ok fs'') := by
  intro intent dd fs
  refine ⟨?_, ?_, ?_⟩
  · intro h
    simp [archive_intent, h]
  · intro p hp hmiss
    simp [archive_intent, hp, hmiss]
  · intro p name hp hn
    rcases archive_intent_ok intent dd fs p name hp hn with ⟨fs', h1⟩
    rcases archive_intent_ok intent dd fs' p name hp hn with ⟨fs'', h2⟩
    exact ⟨fs', h1, fs'', h2⟩

/-- Witness for C6: a concrete intent whose file is missing archives
successfully, and with the file present two consecutive archive calls both
succeed. -/
theorem C6_archive_idempotent_on_missing_witness :
    (c6_intent.storage_path = some ["d", "intent", "queue", "a.md"] ∧
      fsHasPath [] ["d", "intent", "queue", "a.md"] = false ∧
      archive_intent c6_intent ["d"] [] = .ok []) ∧
    (∃ fs', archive_intent c6_intent ["d"] [⟨["d", "intent", "queue", "a.md"], "x"⟩] = .ok fs' ∧
      ∃ fs'', archive_intent c6_intent ["d"] fs' = .ok fs'') :=
  ⟨⟨rfl, rfl,
      (C6_archive_idempotent_on_missing c6_intent ["d"] []).2.1 _ rfl rfl⟩,
    (C6_archive_idempotent_on_missing c6_intent ["d"]
        [⟨["d", "intent", "queue", "a.md"], "x"⟩]).2.2 _ "a.md" rfl rfl⟩

/-! ## Stable sort lemmas -/

theorem mem_stable_insert {α : Type} (le : α → α → Bool) (a x : α) :
    ∀ (l : List α), x ∈ stable_insert le a l ↔ x = a ∨ x ∈ l := by
  intro l
  induction l with
  | nil => simp [stable_insert]
  | cons b t ih =>
    by_cases h : le a b = true
    · simp [stable_insert, h]
    · simp only [stable_insert, if_neg h, List.mem_cons, ih]
      tauto

theorem pairwise_stable_insert {α : Type} (le : α → α → Bool)
    (htrans : ∀ a b c, le a b = true → le b c = true → le a c = true)
    (htotal : ∀ a b, (le a b || le b a) = true) (a : α) :
    ∀ (l : List α), l.Pairwise (fun x y => le x y = true) →
      (stable_insert le a l).Pairwise (fun x y => le x y = true) := by
  intro l
  induction l with
  | nil => intro _; simp [stable_insert]
  | cons b t ih =>
    intro hp
    rcases List.pairwise_cons.mp hp with ⟨hb, ht⟩
    by_cases h : le a b = true
    · rw [stable_insert, if_pos h]
      refine List.pairwise_cons.mpr ⟨?_, hp⟩
      intro y hy
      rcases List.mem_cons.mp hy with rfl | hyt
      · exact h
      · exact htrans a b y h (hb y hyt)
    · rw [stable_insert, if_neg h]
      have hba : le b a = true := by
        have := htotal a b
        rw [Bool.or_eq_true] at this
        rcases this with h1 | h1
        · exact absurd h1 h
        · exact h1
      refine List.pairwise_cons.mpr ⟨?_, ih ht⟩
      intro y hy
      rcases (mem_stable_insert le a y t).mp hy with rfl | hyt
      · exact hba
      · exact hb y hyt

theorem sorted_insertion_sort {α : Type} (le : α → α → Bool)
    (htrans : ∀ a b c, le a b = true → le b c = true → le a c = true)
    (htotal : ∀ a b, (le a b || le b a) = true) :
    ∀ (l : List α), (insertion_sort le l).Pairwise (fun x y => le x y = true) := by
  intro l
  induction l with
  | nil => simp [insertion_sort]
  | cons x xs ih => exact pairwise_stable_insert le htrans htotal x _ ih

theorem mem_insertion_sort {α : Type} (le : α → α → Bool) (x : α) :
    ∀ (l : List α), x ∈ insertion_sort le l ↔ x ∈ l := by
  intro l
  induction l with
  | nil => simp [insertion_sort]
  | cons y ys ih =>
    rw [insertion_sort, mem_stable_insert le y x, ih]
    simp

/-! ## SP index lemmas -/

theorem top_used_le_trans (a b c : SpEntry) (h1 : top_used_le a b = true)
    (h2 : top_used_le b c = true) : top_used_le a c = true := by
  simp only [top_used_le, decide_eq_true_eq] at *
  omega

theorem top_used_le_total (a b : SpEntry) : (top_used_le a b || top_used_le b a) = true := by
  simp only [top_used_le, Bool.or_eq_true, decide_eq_true_eq]
  omega

theorem most_recent_le_trans (a b c : SpEntry) (h1 : most_recent_le a b = true)
    (h2 : most_recent_le b c = true) : most_recent_le a c = true := by
  simp only [most_recent_le, decide_eq_true_eq] at *
  omega

theorem most_recent_le_total (a b : SpEntry) : (most_recent_le a b || most_recent_le b a) = true := by
  simp only [most_recent_le, Bool.or_eq_true, decide_eq_true_eq]
  omega

theorem truncate_to_cap_length (l : List SpEntry) : (truncate_to_cap l).length ≤ 10 := by
  unfold truncate_to_cap
  split
  · simp [List.length_take]
  · omega

theorem truncate_to_cap_pairwise (R : SpEntry → SpEntry → Prop) (l : List SpEntry)
    (h : l.Pairwise R) : (truncate_to_cap l).Pairwise R := by
  unfold truncate_to_cap
  split
  · exact List.Pairwise.sublist (List.take_sublist 10 l) h
  · exact h

theorem bump_first_of_find (s : String) (now : Nat) :
    ∀ (l : List SpEntry) (e : SpEntry),
      l.find? (fun x => decide (x.summary = s)) = some e →
      ∃ l', bump_first s now l = some l' ∧
        ({ summary := s, count := e.count + 1, last_seen := now } : SpEntry) ∈ l' := by
  intro l
  induction l with
  | nil => intro e h; simp at h
  | cons x rest ih =>
    intro e h
    by_cases hx : x.summary = s
    · rw [List.find?_cons_of_pos _ (by simp [hx])] at h
      injection h with hxe
      subst hxe
      refine ⟨{ x with count := x.count + 1, last_seen := now } :: rest, ?_, ?_⟩
      · simp [bump_first, hx]
      · rw [hx]
        exact List.mem_cons_self _ _
    · rw [List.find?_cons_of_neg _ (by simp [hx])] at h
      rcases ih e h with ⟨l', hb, hm⟩
      exact ⟨x :: l', by simp [bump_first, hx, hb], by simp [hm]⟩

theorem bump_first_none (s : String) (now : Nat) :
    ∀ (l : List SpEntry), l.find? (fun x => decide (x.summary = s)) = none →
      bump_first s now l = none := by
  intro l
  induction l with
  | nil => intro _; rfl
  | cons x rest ih =>
    intro h
    rw [List.find?_eq_none] at h
    have hx : ¬x.summary = s := by
      have := h x (by simp)
      simpa using this
    simp only [bump_first, hx, if_false]
    rw [ih (List.find?_eq_none.mpr (fun y hy => h y (by simp [hy])))]
    rfl

/-- Claim C9: after every usage-index update both lists hold at most 10
entries, `top_used` is sorted by count descending then recency descending
and `most_recent` by recency descending, eviction is truncation after the
sort, and an update whose synthesized "intent ⇒ final answer" line exactly
matches an existing `top_used` entry increments that entry's counter and
refreshes its recency (while `most_recent` drops the old copy of the line
and re-adds it with the fresh recency). -/
theorem C9_sp_index_bounded_sorted_upsert :
    ∀ (index : PersistedSpIndex) (intent : Intent) (outcome : AgentOutcome) (now : Nat),
      (update_sp_index index intent outcome now).top_used.length ≤ 10 ∧
      (update_sp_index index intent outcome now).most_recent.length ≤ 10 ∧
      List.Pairwise (fun a b => top_used_le a b = true)
        (update_sp_index index intent outcome now).top_used ∧
      List.Pairwise (fun a b => most_recent_le a b = true)
        (update_sp_index index intent outcome now).most_recent ∧
      (∀ e, index.top_used.find? (fun x => decide (x.summary = synthesized_summary intent outcome)) = some e →
        ∃ l', bump_first (synthesized_summary intent outcome) now index.top_used = some l' ∧
          ({ summary := synthesized_summary intent outcome, count := e.count + 1,
             last_seen := now } : SpEntry) ∈ l' ∧
          (update_sp_index index intent outcome now).top_used =
            truncate_to_cap (insertion_sort top_used_le l')) ∧
      (index.top_used.find? (fun x => decide (x.summary = synthesized_summary intent outcome)) = none →
        (update_sp_index index intent outcome now).top_used =
          truncate_to_cap (insertion_sort top_used_le (index.top_used ++
            [({ summary := synthesized_summary intent outcome, count := 1,
                last_seen := now } : SpEntry)]))) ∧
      (update_sp_index index intent outcome now).most_recent =
        truncate_to_cap (insertion_sort most_recent_le ((index.most_recent.filter
            (fun e => decide (e.summary ≠ synthesized_summary intent outcome))) ++
          [({ summary := synthesized_summary intent outcome, count := 1,
              last_seen := now } : SpEntry)])) := by
  intro index intent outcome now
  refine ⟨?_, ?_, ?_, ?_, ?_, ?_, ?_⟩
  · exact truncate_to_cap_length _
  · exact truncate_to_cap_length _
  · exact truncate_to_cap_pairwise _ _
      (sorted_insertion_sort top_used_le top_used_le_trans top_used_le_total _)
  · exact truncate_to_cap_pairwise _ _
      (sorted_insertion_sort most_recent_le most_recent_le_trans most_recent_le_total _)
  · intro e hfind
    rcases bump_first_of_find (synthesized_summary intent outcome) now index.top_used e hfind
      with ⟨l', hb, hm⟩
    refine ⟨l', hb, hm, ?_⟩
    simp [update_sp_index, upsert_top_used, hb]
  · intro hfind
    rw [show (update_sp_index index intent outcome now).top_used =
        upsert_top_used index.top_used (synthesized_summary intent outcome) now from rfl,
      upsert_top_used, bump_first_none _ now _ hfind]
  · rfl

/-- Witness for C9: a concrete update whose synthesized line matches the
existing `top_used` entry bumps its count from 2 to 3 and refreshes its
recency. -/
theorem C9_sp_index_bounded_sorted_upsert_witness :
    (c9_index.top_used.find?
        (fun x => decide (x.summary = synthesized_summary c9_intent c9_outcome)) =
      some { summary := "a ⇒ b", count := 2, last_seen := 1 }) ∧
    (∃ l', bump_first (synthesized_summary c9_intent c9_outcome) 5 c9_index.top_used = some l' ∧
      ({ summary := synthesized_summary c9_intent c9_outcome, count := 2 + 1,
         last_seen := 5 } : SpEntry) ∈ l' ∧
      (update_sp_index c9_index c9_intent c9_outcome 5).top_used =
        truncate_to_cap (insertion_sort top_used_le l')) :=
  ⟨by decide,
    (C9_sp_index_bounded_sorted_upsert c9_index c9_intent c9_outcome 5).2.2.2.2.1
      { summary := "a ⇒ b", count := 2, last_seen := 1 } (by decide)⟩

/-! ## Dedup-union lemmas for the memory rollup -/

theorem mem_push_if_new {α : Type} [DecidableEq α] (acc : List α) (a x : α) :
    x ∈ push_if_new acc a ↔ x ∈ acc ∨ x = a := by
  by_cases h : a ∈ acc
  · simp only [push_if_new, if_pos h]
    constructor
    · exact Or.inl
    · rintro (hx | rfl)
      · exact hx
      · exact h
  · simp [push_if_new, h]

theorem nodup_push_if_new {α : Type} [DecidableEq α] (acc : List α) (a : α) (h : acc.Nodup) :
    (push_if_new acc a).Nodup := by
  by_cases ha : a ∈ acc
  · simpa [push_if_new, ha] using h
  · simp [push_if_new, ha, List.nodup_append, h]

theorem mem_foldl_push_if_new {α : Type} [DecidableEq α] (x : α) :
    ∀ (l acc : List α), x ∈ l.foldl push_if_new acc ↔ x ∈ acc ∨ x ∈ l := by
  intro l
  induction l with
  | nil => intro acc; simp
  | cons a t ih =>
    intro acc
    rw [List.foldl_cons, ih, mem_push_if_new]
    simp [or_assoc]

theorem nodup_foldl_push_if_new {α : Type} [DecidableEq α] :
    ∀ (l acc : List α), acc.Nodup → (l.foldl push_if_new acc).Nodup := by
  intro l
  induction l with
  | nil => intro acc h; simpa using h
  | cons a t ih =>
    intro acc h
    rw [List.foldl_cons]
    exact ih _ (nodup_push_if_new acc a h)

theorem mem_dedup_union_aux {α : Type} [DecidableEq α] (x : α) :
    ∀ (ls : List (List α)) (acc : List α),
      x ∈ ls.foldl (fun acc l => l.foldl push_if_new acc) acc ↔ x ∈ acc ∨ ∃ l ∈ ls, x ∈ l := by
  intro ls
  induction ls with
  | nil => intro acc; simp
  | cons l t ih =>
    intro acc
    rw [List.foldl_cons, ih, mem_foldl_push_if_new]
    simp [or_assoc]

theorem mem_dedup_union {α : Type} [DecidableEq α] (x : α) (ls : List (List α)) :
    x ∈ dedup_union ls ↔ ∃ l ∈ ls, x ∈ l := by
  rw [dedup_union, mem_dedup_union_aux]
  simp

theorem nodup_dedup_union {α : Type} [DecidableEq α] (ls : List (List α)) :
    (dedup_union ls).Nodup := by
  suffices h : ∀ (acc : List α), acc.Nodup →
      (ls.foldl (fun acc l => l.foldl push_if_new acc) acc).Nodup by
    exact h [] List.nodup_nil
  induction ls with
  | nil => intro acc hacc; simpa using hacc
  | cons l t ih =>
    intro acc hacc
    rw [List.foldl_cons]
    exact ih _ (nodup_foldl_push_if_new _ _ hacc)

/-- Counterexample for C7: the rebuilt L2 entry's detail list is the
bulleted summary of the contributing L1 entry, not the deduplicated union
of the L1 entries' detail lists, refuting the claim's description of the
detail collection. -/
theorem C7_details_counterexample :
    (rebuild_l2_for_day 9 11 "2025-01-01" [c7_l1] none).map MemoryEntry.details =
      some ["• wrote report"] ∧
    dedup_union ([c7_l1].map MemoryEntry.details) = ["Source: cli", "Final: done"] ∧
    (["• wrote report"] : List String) ≠ ["Source: cli", "Final: done"] := by
  refine ⟨?_, by decide, by decide⟩
  rfl

/-- Claim C7 (amended): rebuilding the L2 rollup keeps the entry's id and
creation time equal to those of the previously persisted L2 entry for that
day, minting a fresh id only when no prior L2 exists; its anchor, tag and
related-intent collections are the deduplicated union of those of all the
day's L1 entries; its detail list is the bulleted summaries of the first
(at most 6) L1 entries, not a union of their detail lists. -/
theorem C7_l2_rollup_stable_id_and_unions :
    ∀ (freshId now : Nat) (dateStr : String) (entries : List MemoryEntry)
      (existing : Option MemoryEntry) (first : MemoryEntry) (rest : List MemoryEntry),
      entries = first :: rest →
      ∃ r, rebuild_l2_for_day freshId now dateStr entries existing = some r ∧
        (∀ prev, existing = some prev → r.id = prev.id ∧ r.created_at = prev.created_at) ∧
        (existing = none → r.id = freshId ∧ r.created_at = first.created_at) ∧
        r.details = (entries.take 6).map bullet_detail ∧
        r.anchors.Nodup ∧ (∀ a, a ∈ r.anchors ↔ ∃ e ∈ entries, a ∈ e.anchors) ∧
        r.tags.Nodup ∧ (∀ t, t ∈ r.tags ↔ ∃ e ∈ entries, t ∈ e.tags) ∧
        r.related_intents.Nodup ∧
        (∀ i, i ∈ r.related_intents ↔ ∃ e ∈ entries, i ∈ e.related_intents) := by
  intro freshId now dateStr entries existing first rest hent
  subst hent
  refine ⟨_, rfl, ?_, ?_, rfl, nodup_dedup_union _, ?_, nodup_dedup_union _, ?_,
    nodup_dedup_union _, ?_⟩
  · intro prev hprev
    subst hprev
    exact ⟨rfl, rfl⟩
  · intro hnone
    subst hnone
    exact ⟨rfl, rfl⟩
  · intro a
    simp only [mem_dedup_union, List.mem_map]
    constructor
    · rintro ⟨l, ⟨e, he, rfl⟩, ha⟩
      exact ⟨e, he, ha⟩
    · rintro ⟨e, he, ha⟩
      exact ⟨e.anchors, ⟨e, he, rfl⟩, ha⟩
  · intro t
    simp only [mem_dedup_union, List.mem_map]
    constructor
    · rintro ⟨l, ⟨e, he, rfl⟩, ht⟩
      exact ⟨e, he, ht⟩
    · rintro ⟨e, he, ht⟩
      exact ⟨e.tags, ⟨e, he, rfl⟩, ht⟩
  · intro i
    simp only [mem_dedup_union, List.mem_map]
    constructor
    · rintro ⟨l, ⟨e, he, rfl⟩, hi⟩
      exact ⟨e, he, hi⟩
    · rintro ⟨e, he, hi⟩
      exact ⟨e.related_intents, ⟨e, he, rfl⟩, hi⟩

/-- Witness for C7: rebuilding with a prior L2 entry present reuses its id
and creation time. -/
theorem C7_l2_rollup_stable_id_and_unions_witness :
    ([c7_l1] = c7_l1 :: ([] : List MemoryEntry)) ∧
    (∃ r, rebuild_l2_for_day 9 11 "2025-01-01" [c7_l1] (some c7_prior) = some r ∧
      (∀ prev, some c7_prior = some prev → r.id = prev.id ∧ r.created_at = prev.created_at) ∧
      (some c7_prior = none → r.id = 9 ∧ r.created_at = c7_l1.created_at) ∧
      r.details = ([c7_l1].take 6).map bullet_detail ∧
      r.anchors.Nodup ∧ (∀ a, a ∈ r.anchors ↔ ∃ e ∈ [c7_l1], a ∈ e.anchors) ∧
      r.tags.Nodup ∧ (∀ t, t ∈ r.tags ↔ ∃ e ∈ [c7_l1], t ∈ e.tags) ∧
      r.related_intents.Nodup ∧
      (∀ i, i ∈ r.related_intents ↔ ∃ e ∈ [c7_l1], i ∈ e.related_intents)) :=
  ⟨rfl, C7_l2_rollup_stable_id_and_unions 9 11 "2025-01-01" [c7_l1] (some c7_prior) c7_l1 [] rfl⟩

/-! ## Rename preservation lemmas -/

theorem any_eraseP_ne (fs : Fs) (src p : FPath) (hne : p ≠ src) :
    ((fs.eraseP (fun g => decide (g.path = src))).any (fun f => decide (f.path = p))) =
      fs.any (fun f => decide (f.path = p)) := by
  induction fs with
  | nil => rfl
  | cons f t ih =>
    rw [List.eraseP_cons]
    by_cases hf : f.path = src
    · have hc : (decide (f.path = src)) = true := by simp [hf]
      have hfp : (decide (f.path = p)) = false := by
        simp only [decide_eq_false_iff_not]
        rw [hf]
        exact fun h => hne h.symm
      rw [hc, cond_true, List.any_cons, hfp, Bool.false_or]
    · have hc : (decide (f.path = src)) = false := by simp [hf]
      rw [hc, cond_false, List.any_cons, List.any_cons, ih]

theorem fsHasPath_rename_dst {fs fs' : Fs} {src dst : FPath}
    (h : fsRename fs src dst = .ok fs') : fsHasPath fs' dst = true := by
  unfold fsRename at h
  cases hf : fs.find? (fun f => decide (f.path = src)) with
  | none => rw [hf] at h; cases h
  | some f =>
    rw [hf] at h
    injection h with h
    subst h
    simp [fsHasPath]

theorem fsHasPath_rename_pres {fs fs' : Fs} {src dst : FPath}
    (h : fsRename fs src dst = .ok fs') (p : FPath) (hp : fsHasPath fs p = true)
    (hne : p ≠ src) : fsHasPath fs' p = true := by
  unfold fsRename at h
  cases hf : fs.find? (fun f => decide (f.path = src)) with
  | none => rw [hf] at h; cases h
  | some f =>
    rw [hf] at h
    injection h with h
    subst h
    by_cases hd : dst = p
    · simp [fsHasPath, hd]
    · simp only [fsHasPath, List.any_cons, Bool.or_eq_true]
      right
      rw [any_eraseP_ne fs src p hne]
      exact hp

theorem promote_to_queue_ok {p dd : FPath} {fs fs' : Fs} {dest : FPath}
    (h : promote_to_queue p dd fs = .ok (fs', dest)) :
    ∃ name, p.getLast? = some name ∧ dest = queue_dir dd ++ [name] ∧
      fsRename fs p dest = .ok fs' := by
  unfold promote_to_queue at h
  split at h
  · cases h
  · rename_i name hl
    split at h
    · rename_i fs₁ hr
      injection h with hpair
      injection hpair with h1 h2
      subst h1
      subst h2
      exact ⟨name, hl, rfl, hr⟩
    · cases h

theorem defer_intent_ok {p dd : FPath} {fs fs' : Fs} {dest : FPath}
    (h : defer_intent p dd fs = .ok (fs', dest)) :
    ∃ name, p.getLast? = some name ∧ dest = deferred_dir dd ++ [name] ∧
      fsRename fs p dest = .ok fs' := by
  unfold defer_intent at h
  split at h
  · cases h
  · rename_i name hl
    split at h
    · rename_i fs₁ hr
      injection h with hpair
      injection hpair with h1 h2
      subst h1
      subst h2
      exact ⟨name, hl, rfl, hr⟩
    · cases h

theorem quarantine_failed_intent_ok {p dd : FPath} {fs fs' : Fs} {dest : FPath}
    (h : quarantine_failed_intent p dd fs = .ok (fs', dest)) :
    ∃ name, p.getLast? = some name ∧ dest = failed_dir dd ++ [name] ∧
      fsRename fs p dest = .ok fs' := by
  unfold quarantine_failed_intent at h
  split at h
  · cases h
  · rename_i name hl
    split at h
    · rename_i fs₁ hr
      injection h with hpair
      injection hpair with h1 h2
      subst h1
      subst h2
      exact ⟨name, hl, rfl, hr⟩
    · cases h

/-! ## Ingestion lemmas -/

theorem ingest_records_preserves (threshold : ℚ) (dd : FPath) :
    ∀ (rs : List IntentRecord) (fs : Fs) (q : IntentQueue) (p : FPath),
      fsHasPath fs p = true → (∀ r ∈ rs, r.path ≠ p) →
      fsHasPath (ingest_records threshold dd rs fs q).1 p = true := by
  intro rs
  induction rs with
  | nil => intro fs q p hp _; simpa [ingest_records] using hp
  | cons r rest ih =>
    intro fs q p hp hnot
    by_cases hal : r.intent.telos_alignment ≥ threshold
    · cases hpq : promote_to_queue r.path dd fs with
      | error e => simpa [ingest_records, hal, hpq] using hp
      | ok pair =>
        rcases promote_to_queue_ok
            (show promote_to_queue r.path dd fs = .ok (pair.1, pair.2) by rw [hpq]) with
          ⟨name, _, _, hr⟩
        have hp₁ : fsHasPath pair.1 p = true :=
          fsHasPath_rename_pres hr p hp (fun hEq => hnot r (by simp) hEq.symm)
        have := ih pair.1 (q.push { r.intent with storage_path := some pair.2 }) p hp₁
          (fun r' hm => hnot r' (List.mem_cons_of_mem _ hm))
        simpa [ingest_records, hal, hpq] using this
    · cases hpq : defer_intent r.path dd fs with
      | error e => simpa [ingest_records, hal, hpq] using hp
      | ok pair =>
        rcases defer_intent_ok
            (show defer_intent r.path dd fs = .ok (pair.1, pair.2) by rw [hpq]) with
          ⟨name, _, _, hr⟩
        have hp₁ : fsHasPath pair.1 p = true :=
          fsHasPath_rename_pres hr p hp (fun hEq => hnot r (by simp) hEq.symm)
        have := ih pair.1 q p hp₁ (fun r' hm => hnot r' (List.mem_cons_of_mem _ hm))
        simpa [ingest_records, hal, hpq] using this

/-- Claim C1: for every intake record, ingestion compares its alignment to
the threshold — a record at or above the threshold is relocated to the
"queue" directory and pushed onto the in-memory Queue (with its new storage
path), and a record below it is relocated to the "deferred" directory and
never pushed: the queue gains exactly the aligned records, in order. -/
theorem C1_ingest_alignment_dichotomy :
    ∀ (threshold : ℚ) (dd : FPath) (records : List IntentRecord) (fs : Fs) (q : IntentQueue),
      (∀ r ∈ records, ∃ name, r.path = inbox_dir dd ++ [name]) →
      (∀ r ∈ records, fsHasPath fs r.path = true) →
      (records.map IntentRecord.path).Nodup →
      (ingest_records threshold dd records fs q).2.2 = none ∧
      (ingest_records threshold dd records fs q).2.1.items =
        q.items ++ (records.filter (aligned threshold)).map (promoted dd) ∧
      (∀ r ∈ records,
        (aligned threshold r = true →
          fsHasPath (ingest_records threshold dd records fs q).1
            (queue_dir dd ++ [r.path.getLastD ""]) = true) ∧
        (aligned threshold r = false →
          fsHasPath (ingest_records threshold dd records fs q).1
            (deferred_dir dd ++ [r.path.getLastD ""]) = true)) := by
  intro threshold dd records
  induction records with
  | nil =>
    intro fs q _ _ _
    refine ⟨rfl, by simp [ingest_records], by simp⟩
  | cons r rest ih =>
    intro fs q hwf hin hnodup
    obtain ⟨name, hpath⟩ := hwf r (by simp)
    have hlast : r.path.getLast? = some name := by
      rw [hpath, inbox_dir]
      exact List.getLast?_concat _
    have hlastD : r.path.getLastD "" = name := by
      rw [hpath, inbox_dir]
      simp [List.getLastD_eq_getLast?, List.getLast?_concat]
    have hrest_wf : ∀ r' ∈ rest, ∃ n, r'.path = inbox_dir dd ++ [n] :=
      fun r' hm => hwf r' (List.mem_cons_of_mem _ hm)
    have hrest_in : ∀ r' ∈ rest, fsHasPath fs r'.path = true :=
      fun r' hm => hin r' (List.mem_cons_of_mem _ hm)
    rw [List.map_cons] at hnodup
    obtain ⟨hn1, hn2⟩ := List.nodup_cons.mp hnodup
    have hrest_ne : ∀ r' ∈ rest, r'.path ≠ r.path := by
      intro r' hm hEq
      exact hn1 (hEq ▸ List.mem_map_of_mem IntentRecord.path hm)
    by_cases hal : r.intent.telos_alignment ≥ threshold
    · rcases fsRename_ok_of_has fs r.path (queue_dir dd ++ [name]) (hin r (by simp)) with ⟨fs₁, hr⟩
      have hstep : ingest_records threshold dd (r :: rest) fs q =
          ingest_records threshold dd rest fs₁
            (q.push { r.intent with storage_path := some (queue_dir dd ++ [name]) }) := by
        simp [ingest_records, hal, promote_to_queue, hlast, hr]
      have hin₁ : ∀ r' ∈ rest, fsHasPath fs₁ r'.path = true :=
        fun r' hm => fsHasPath_rename_pres hr _ (hrest_in r' hm) (hrest_ne r' hm)
      obtain ⟨ihe, ihq, ihf⟩ := ih fs₁
        (q.push { r.intent with storage_path := some (queue_dir dd ++ [name]) })
        hrest_wf hin₁ hn2
      have halb : aligned threshold r = true := by simp [aligned, hal]
      refine ⟨by rw [hstep]; exact ihe, ?_, ?_⟩
      · rw [hstep, ihq]
        simp [List.filter_cons, halb, IntentQueue.push, promoted,
          List.getLastD_eq_getLast?, hlast]
      · intro r' hm
        rcases List.mem_cons.mp hm with rfl | hmem
        · constructor
          · intro _
            rw [hstep, hlastD]
            apply ingest_records_preserves
            · exact fsHasPath_rename_dst hr
            · intro r'' hm'' hEq
              rcases hrest_wf r'' hm'' with ⟨n'', hp''⟩
              rw [hp''] at hEq
              simp [inbox_dir, queue_dir] at hEq
          · intro hfalse
            rw [halb] at hfalse
            cases hfalse
        · rw [hstep]
          exact ihf r' hmem
    · rcases fsRename_ok_of_has fs r.path (deferred_dir dd ++ [name]) (hin r (by simp)) with ⟨fs₁, hr⟩
      have hstep : ingest_records threshold dd (r :: rest) fs q =
          ingest_records threshold dd rest fs₁ q := by
        simp [ingest_records, hal, defer_intent, hlast, hr]
      have hin₁ : ∀ r' ∈ rest, fsHasPath fs₁ r'.path = true :=
        fun r' hm => fsHasPath_rename_pres hr _ (hrest_in r' hm) (hrest_ne r' hm)
      obtain ⟨ihe, ihq, ihf⟩ := ih fs₁ q hrest_wf hin₁ hn2
      have halb : aligned threshold r = false := by simp [aligned, hal]
      refine ⟨by rw [hstep]; exact ihe, ?_, ?_⟩
      · rw [hstep, ihq]
        simp [List.filter_cons, halb]
      · intro r' hm
        rcases List.mem_cons.mp hm with rfl | hmem
        · constructor
          · intro htrue
            rw [halb] at htrue
            cases htrue
          · intro _
            rw [hstep, hlastD]
            apply ingest_records_preserves
            · exact fsHasPath_rename_dst hr
            · intro r'' hm'' hEq
              rcases hrest_wf r'' hm'' with ⟨n'', hp''⟩
              rw [hp''] at hEq
              simp [inbox_dir, deferred_dir] at hEq
        · rw [hstep]
          exact ihf r' hmem

/-- Witness for C1: with threshold 1, a record of alignment 2 and one of
alignment 0, ingestion succeeds and the queue gains exactly the aligned
record. -/
theorem C1_ingest_alignment_dichotomy_witness :
    (∀ r ∈ [c1_rec1, c1_rec2], fsHasPath c1_fs r.path = true) ∧
    (([c1_rec1, c1_rec2].map IntentRecord.path).Nodup) ∧
    (ingest_records 1 ["d"] [c1_rec1, c1_rec2] c1_fs ⟨[]⟩).2.2 = none ∧
    (ingest_records 1 ["d"] [c1_rec1, c1_rec2] c1_fs ⟨[]⟩).2.1.items =
      [promoted ["d"] c1_rec1] := by
  have hwf : ∀ r ∈ [c1_rec1, c1_rec2], ∃ name, r.path = inbox_dir ["d"] ++ [name] := by
    intro r hr
    rcases List.mem_cons.mp hr with rfl | hr2
    · exact ⟨"a.md", rfl⟩
    · rcases List.mem_singleton.mp hr2 with rfl
      exact ⟨"b.md", rfl⟩
  have h := C1_ingest_alignment_dichotomy 1 ["d"] [c1_rec1, c1_rec2] c1_fs ⟨[]⟩
    hwf (by decide) (by decide)
  refine ⟨by decide, by decide, h.1, ?_⟩
  rw [h.2.1]
  decide

/-! ## Scan lemmas -/

theorem is_child_file_shape {dir p : FPath} (h : is_child_file dir p = true) :
    ∃ n, p = dir ++ [n] := by
  rw [is_child_file, Bool.and_eq_true, decide_eq_true_eq, decide_eq_true_eq] at h
  obtain ⟨hlen, htake⟩ := h
  have hsplit : p.take dir.length ++ p.drop dir.length = p := List.take_append_drop _ _
  have hdlen : (p.drop dir.length).length = 1 := by
    rw [List.length_drop, hlen]
    omega
  cases hd : p.drop dir.length with
  | nil => rw [hd] at hdlen; cases hdlen
  | cons a t =>
    rw [hd] at hdlen
    simp at hdlen
    subst hdlen
    exact ⟨a, by rw [← hsplit, htake, hd]⟩

theorem scan_intent_dir_go_paths (yamlParse : String → Except String IntentFrontMatter)
    (freshId : FPath → Nat) (now : Nat) :
    ∀ (files : List FsFile) (records : List IntentRecord),
      scan_intent_dir_go yamlParse freshId now files = .ok records →
      ∀ r ∈ records, ∃ f ∈ files, r.path = f.path := by
  intro files
  induction files with
  | nil =>
    intro records h r hr
    injection h with h
    subst h
    cases hr
  | cons f rest ih =>
    intro records h r hr
    cases hpm : parse_intent_front_matter yamlParse f.content with
    | error e =>
      rw [scan_intent_dir_go, hpm] at h
      cases h
    | ok fm =>
      rw [scan_intent_dir_go, hpm] at h
      cases hrs : scan_intent_dir_go yamlParse freshId now rest with
      | error e =>
        rw [hrs] at h
        cases h
      | ok rs =>
        rw [hrs] at h
        injection h with h
        subst h
        rcases List.mem_cons.mp hr with rfl | hmem
        · exact ⟨f, by simp, rfl⟩
        · rcases ih rs hrs r hmem with ⟨f', hf', hp⟩
          exact ⟨f', List.mem_cons_of_mem _ hf', hp⟩

theorem scan_intent_dir_paths (yamlParse : String → Except String IntentFrontMatter)
    (freshId : FPath → Nat) (now : Nat) (fs : Fs) (dir : FPath)
    (records : List IntentRecord) (h : scan_intent_dir yamlParse freshId now fs dir = .ok records) :
    ∀ r ∈ records, ∃ n, r.path = dir ++ [n] := by
  intro r hr
  rw [scan_intent_dir] at h
  split at h
  · cases h
  · rename_i rs hrs
    injection h with h
    subst h
    rw [mem_insertion_sort] at hr
    rcases scan_intent_dir_go_paths yamlParse freshId now (dir_files fs dir) rs hrs r hr with
      ⟨f, hf, hp⟩
    have hpred : is_child_file dir f.path = true :=
      (List.mem_filter.mp (show f ∈ fs.filter (fun g => is_child_file dir g.path) from hf)).2
    rcases is_child_file_shape hpred with ⟨n, hn⟩
    exact ⟨n, by rw [hp, hn]⟩

theorem foldl_push_items (f : IntentRecord → Intent) :
    ∀ (records : List IntentRecord) (q : IntentQueue),
      (records.foldl (fun acc r => acc.push (f r)) q).items = q.items ++ records.map f := by
  intro records
  induction records with
  | nil => intro q; simp
  | cons r rest ih =>
    intro q
    rw [List.foldl_cons, ih]
    simp [IntentQueue.push]

/-- Claim C10: the startup rebuild of the Queue only enqueues records whose
files lie directly in the queue directory; a quarantined record lives in
the `failed` subdirectory (`intent/queue/failed`), whose entry the
non-recursive, file-only scan skips, so a quarantined record's path is
never among the rescanned records and the rebuilt queue holds exactly the
direct-child records. -/
theorem C10_quarantined_never_requeued :
    ∀ (yamlParse : String → Except String IntentFrontMatter) (freshId : FPath → Nat)
      (now : Nat) (dd p : FPath) (fs fs' : Fs) (dest : FPath),
      (∀ records, scan_queue yamlParse freshId now fs dd = .ok records →
        ∀ r ∈ records, ∃ n, r.path = queue_dir dd ++ [n]) ∧
      (quarantine_failed_intent p dd fs = .ok (fs', dest) →
        (∃ name, dest = failed_dir dd ++ [name]) ∧
        (∀ records, scan_queue yamlParse freshId now fs' dd = .ok records →
          (∀ r ∈ records, r.path ≠ dest) ∧
          (∀ q : IntentQueue,
            (load_existing_queue yamlParse freshId now dd fs' q).1.items =
              q.items ++ records.map (fun r => { r.intent with storage_path := some r.path })))) := by
  intro yamlParse freshId now dd p fs fs' dest
  constructor
  · intro records h
    exact scan_intent_dir_paths yamlParse freshId now fs (queue_dir dd) records h
  · intro hq
    rcases quarantine_failed_intent_ok hq with ⟨name, _, hdest, _⟩
    refine ⟨⟨name, hdest⟩, ?_⟩
    intro records h
    constructor
    · intro r hr hEq
      rcases scan_intent_dir_paths yamlParse freshId now fs' (queue_dir dd) records h r hr with
        ⟨n, hn⟩
      rw [hn, hdest] at hEq
      simp [queue_dir, failed_dir] at hEq
    · intro q
      rw [load_existing_queue]
      split
      · rename_i e he
        rw [he] at h
        cases h
      · rename_i rs hrs
        rw [hrs] at h
        injection h with h
        subst h
        exact foldl_push_items _ rs q

/-- Witness for C10: quarantining `a.md` moves it into the `failed`
subdirectory; the startup rescan of the queue directory then returns only
`b.md`, and the rebuilt queue holds only that record. -/
theorem C10_quarantined_never_requeued_witness :
    (quarantine_failed_intent ["d", "intent", "queue", "a.md"] ["d"] c10_fs =
      .ok (c10_fs2, ["d", "intent", "queue", "failed", "a.md"])) ∧
    (scan_queue c10_yp c10_fresh 3 c10_fs2 ["d"] = .ok [c10_rec]) ∧
    (∃ name, ["d", "intent", "queue", "failed", "a.md"] = failed_dir ["d"] ++ [name]) ∧
    (∀ r ∈ [c10_rec], r.path ≠ ["d", "intent", "queue", "failed", "a.md"]) ∧
    ((load_existing_queue c10_yp c10_fresh 3 ["d"] c10_fs2 ⟨[]⟩).1.items =
      (⟨[]⟩ : IntentQueue).items ++
        [c10_rec].map (fun r => { r.intent with storage_path := some r.path })) := by
  have h := (C10_quarantined_never_requeued c10_yp c10_fresh 3 ["d"]
    ["d", "intent", "queue", "a.md"] c10_fs c10_fs2
    ["d", "intent", "queue", "failed", "a.md"]).2 (by decide)
  have h2 := h.2 [c10_rec] (by decide)
  exact ⟨by decide, by decide, h.1, h2.1, h2.2 ⟨[]⟩⟩

/-- Counterexample for C3: one malformed header makes the whole intake scan
return an error — the other file parses fine yet its record is not
returned — and a failed relocation of the first record aborts the loop, so
the second (relocatable, aligned) record is never enqueued in that pass. -/
theorem C3_per_record_isolation_counterexample :
    (parse_intent_front_matter sample_yaml_parse "---\nid: 1\n---\nbody\n" =
      .ok { id := some 1 }) ∧
    (scan_inbox sample_yaml_parse (fun _ => 7) 5 c3_fs ["d"] =
      .error "invalid front matter") ∧
    ((ingest_records 1 ["d"] [c3_r1, c3_r2] c3_fs2 ⟨[]⟩).2.2 =
      some "rename: source file does not exist") ∧
    (fsHasPath c3_fs2 c3_r2.path = true) ∧
    (ingest_records 1 ["d"] [c3_r1, c3_r2] c3_fs2 ⟨[]⟩).2.1.items = [] := by
  refine ⟨by decide, by decide, by decide, by decide, by decide⟩

theorem ingest_records_stops_at_error (threshold : ℚ) (dd : FPath) :
    ∀ (rs : List IntentRecord) (fs : Fs) (q : IntentQueue),
      ∃ pre post, rs = pre ++ post ∧
        (ingest_records threshold dd rs fs q).2.1.items =
          q.items ++ (pre.filter (aligned threshold)).map (promoted dd) ∧
        ((ingest_records threshold dd rs fs q).2.2 = none → post = []) := by
  intro rs
  induction rs with
  | nil =>
    intro fs q
    exact ⟨[], [], rfl, by simp [ingest_records], fun _ => rfl⟩
  | cons r rest ih =>
    intro fs q
    by_cases hal : r.intent.telos_alignment ≥ threshold
    · cases hpq : promote_to_queue r.path dd fs with
      | error e =>
        refine ⟨[], r :: rest, rfl, ?_, ?_⟩
        · simp [ingest_records, hal, hpq]
        · intro hnone
          rw [show (ingest_records threshold dd (r :: rest) fs q).2.2 = some e by
            simp [ingest_records, hal, hpq]] at hnone
          cases hnone
      | ok pair =>
        rcases promote_to_queue_ok
            (show promote_to_queue r.path dd fs = .ok (pair.1, pair.2) by rw [hpq]) with
          ⟨name, hlast, hdest, hr⟩
        obtain ⟨pre', post', hsplit, hitems, herr⟩ :=
          ih pair.1 (q.push { r.intent with storage_path := some pair.2 })
        refine ⟨r :: pre', post', by simp [hsplit], ?_, ?_⟩
        · have hstep : ingest_records threshold dd (r :: rest) fs q =
              ingest_records threshold dd rest pair.1
                (q.push { r.intent with storage_path := some pair.2 }) := by
            simp [ingest_records, hal, hpq]
          rw [hstep, hitems]
          have halb : aligned threshold r = true := by simp [aligned, hal]
          have hprom : promoted dd r = { r.intent with storage_path := some pair.2 } := by
            rw [promoted, hdest]
            simp [List.getLastD_eq_getLast?, hlast]
          simp [List.filter_cons, halb, IntentQueue.push, hprom]
        · intro hnone
          apply herr
          rw [show (ingest_records threshold dd (r :: rest) fs q).2.2 =
            (ingest_records threshold dd rest pair.1
              (q.push { r.intent with storage_path := some pair.2 })).2.2 by
            simp [ingest_records, hal, hpq]] at hnone
          exact hnone
    · cases hpq : defer_intent r.path dd fs with
      | error e =>
        refine ⟨[], r :: rest, rfl, ?_, ?_⟩
        · simp [ingest_records, hal, hpq]
        · intro hnone
          rw [show (ingest_records threshold dd (r :: rest) fs q).2.2 = some e by
            simp [ingest_records, hal, hpq]] at hnone
          cases hnone
      | ok pair =>
        obtain ⟨pre', post', hsplit, hitems, herr⟩ := ih pair.1 q
        refine ⟨r :: pre', post', by simp [hsplit], ?_, ?_⟩
        · have hstep : ingest_records threshold dd (r :: rest) fs q =
              ingest_records threshold dd rest pair.1 q := by
            simp [ingest_records, hal, hpq]
          rw [hstep, hitems]
          have halb : aligned threshold r = false := by simp [aligned, hal]
          simp [List.filter_cons, halb]
        · intro hnone
          apply herr
          rw [show (ingest_records threshold dd (r :: rest) fs q).2.2 =
            (ingest_records threshold dd rest pair.1 q).2.2 by
            simp [ingest_records, hal, hpq]] at hnone
          exact hnone

theorem scan_intent_dir_go_parses (yamlParse : String → Except String IntentFrontMatter)
    (freshId : FPath → Nat) (now : Nat) :
    ∀ (files : List FsFile) (records : List IntentRecord),
      scan_intent_dir_go yamlParse freshId now files = .ok records →
      ∀ f ∈ files, ∃ fm, parse_intent_front_matter yamlParse f.content = .ok fm := by
  intro files
  induction files with
  | nil => intro records _ f hf; cases hf
  | cons f rest ih =>
    intro records h g hg
    cases hpm : parse_intent_front_matter yamlParse f.content with
    | error e =>
      rw [scan_intent_dir_go, hpm] at h
      cases h
    | ok fm =>
      rw [scan_intent_dir_go, hpm] at h
      cases hrs : scan_intent_dir_go yamlParse freshId now rest with
      | error e => rw [hrs] at h; cases h
      | ok rs =>
        rcases List.mem_cons.mp hg with rfl | hmem
        · exact ⟨fm, hpm⟩
        · exact ih rs hrs g hmem

/-- Claim C3 (amended): ingestion errors are non-fatal to the beat cycle —
`run_beat` only logs an ingest error and still drains the queue — but they
are not per-record within the Ingest phase: a malformed header aborts the
entire intake scan (a successful scan means every scanned file parsed), and
a failed relocation aborts the per-record loop, so only a prefix of the
records is processed and enqueued in that pass. -/
theorem C3_ingest_errors_abort_pass_not_beat :
    (∀ (yamlParse : String → Except String IntentFrontMatter) (freshId : FPath → Nat)
      (now : Nat) (fs : Fs) (dir : FPath) (records : List IntentRecord),
      scan_intent_dir yamlParse freshId now fs dir = .ok records →
      ∀ f ∈ dir_files fs dir, ∃ fm, parse_intent_front_matter yamlParse f.content = .ok fm) ∧
    (∀ (threshold : ℚ) (dd : FPath) (rs : List IntentRecord) (fs : Fs) (q : IntentQueue),
      ∃ pre post, rs = pre ++ post ∧
        (ingest_records threshold dd rs fs q).2.1.items =
          q.items ++ (pre.filter (aligned threshold)).map (promoted dd) ∧
        ((ingest_records threshold dd rs fs q).2.2 = none → post = [])) ∧
    (∀ (yamlParse : String → Except String IntentFrontMatter) (freshId : FPath → Nat)
      (agent : Nat → Intent → Nat → Except String AgentRun) (timeStr : String)
      (now : Nat) (threshold : ℚ) (dd : FPath) (fuel : Nat) (i : Intent) (st : Storage)
      (e : String) (run : AgentRun),
      scan_inbox yamlParse freshId now st.fs dd = .error e →
      i.storage_path = none →
      agent 0 i 0 = .ok run →
      (run_beat yamlParse freshId agent timeStr now threshold dd (fuel + 2) ⟨[i]⟩ st).events =
        [DrainEvent.succeeded i.id]) := by
  refine ⟨?_, ?_, ?_⟩
  · intro yamlParse freshId now fs dir records h f hf
    rw [scan_intent_dir] at h
    split at h
    · cases h
    · rename_i rs hrs
      exact scan_intent_dir_go_parses yamlParse freshId now (dir_files fs dir) rs hrs f hf
  · intro threshold dd rs fs q
    exact ingest_records_stops_at_error threshold dd rs fs q
  · intro yamlParse freshId agent timeStr now threshold dd fuel i st e run hscan hnone hagent
    have hingest : ingest_inbox yamlParse freshId now threshold dd st.fs ⟨[i]⟩ =
        (st.fs, ⟨[i]⟩, some e) := by rw [ingest_inbox, hscan]
    have hproc : process_intent (agent 0 i 0) timeStr now dd i { st with fs := st.fs } =
        (({ st with
            fs := st.fs
            llm_logs := st.llm_logs ++ run.llm_logs
            journal := st.journal ++ [journal_entry_text timeStr i run.outcome]
            sp_index := update_sp_index st.sp_index i run.outcome now } : Storage), none) := by
      rw [hagent]
      simp [process_intent, archive_intent, hnone]
    rw [run_beat, hingest]
    simp only [run_beat_drain, IntentQueue.pop_next, IntentQueue.len, List.length_nil]
    rw [hproc]

/-- Witness for the amended C3: with an inbox whose scan fails on a
malformed header, `run_beat` still drains the queued intent to success. -/
theorem C3_ingest_errors_abort_pass_not_beat_witness :
    (scan_inbox sample_yaml_parse (fun _ => 7) 5 c3_storage.fs ["d"] =
      .error "invalid front matter") ∧
    (c3_intent.storage_path = none) ∧
    ((fun _ _ _ => (.ok c3_run : Except String AgentRun)) 0 c3_intent 0 = .ok c3_run) ∧
    (run_beat sample_yaml_parse (fun _ => 7) (fun _ _ _ => .ok c3_run) "00:00:01" 5 1 ["d"]
        (0 + 2) ⟨[c3_intent]⟩ c3_storage).events = [DrainEvent.succeeded 33] :=
  ⟨by decide, rfl, rfl,
    C3_ingest_errors_abort_pass_not_beat.2.2 sample_yaml_parse (fun _ => 7)
      (fun _ _ _ => .ok c3_run) "00:00:01" 5 1 ["d"] 0 c3_intent c3_storage
      "invalid front matter" c3_run (by decide) rfl rfl⟩

/-- Claim C8 (amended): a successful processing of an intent by the drain
step appends the run's LLM logs, appends exactly one journal entry, updates
the usage index, and archives the intent's file — it does not create any L1
memory entry nor touch the L2 rollup (`process_intent` never calls
`ingest_memory_snapshot`); a failed agent call leaves the storage unchanged
and surfaces the error. -/
theorem C8_process_intent_no_memory_write :
    ∀ (run : AgentRun) (timeStr : String) (now : Nat) (dd : FPath) (intent : Intent)
      (st : Storage),
      ((process_intent (.ok run) timeStr now dd intent st).1.mem_l1 = st.mem_l1 ∧
        (process_intent (.ok run) timeStr now dd intent st).1.mem_l2 = st.mem_l2 ∧
        (process_intent (.ok run) timeStr now dd intent st).1.llm_logs =
          st.llm_logs ++ run.llm_logs ∧
        (process_intent (.ok run) timeStr now dd intent st).1.journal =
          st.journal ++ [journal_entry_text timeStr intent run.outcome] ∧
        (process_intent (.ok run) timeStr now dd intent st).1.sp_index =
          update_sp_index st.sp_index intent run.outcome now) ∧
      (∀ e, process_intent (.error e) timeStr now dd intent st = (st, some e)) := by
  intro run timeStr now dd intent st
  constructor
  · cases harch : archive_intent intent dd st.fs with
    | ok fs' => refine ⟨?_, ?_, ?_, ?_, ?_⟩ <;> simp [process_intent, harch]
    | error e => refine ⟨?_, ?_, ?_, ?_, ?_⟩ <;> simp [process_intent, harch]
  · intro e
    rfl

/-- Counterexample for C8: a concrete successful processing (the error
component is `none`, the intent's file is archived into "history") appends
zero L1 memory entries — not exactly one — and triggers no rollup. -/
theorem C8_no_l1_entry_counterexample :
    (process_intent (.ok c8_run) "12:00:00" 4 ["d"] c8_intent c8_storage).2 = none ∧
    fsHasPath (process_intent (.ok c8_run) "12:00:00" 4 ["d"] c8_intent c8_storage).1.fs
      ["d", "intent", "history", "c.md"] = true ∧
    (process_intent (.ok c8_run) "12:00:00" 4 ["d"] c8_intent c8_storage).1.mem_l1.length = 0 ∧
    (process_intent (.ok c8_run) "12:00:00" 4 ["d"] c8_intent c8_storage).1.mem_l1.length ≠
      c8_storage.mem_l1.length + 1 ∧
    (process_intent (.ok c8_run) "12:00:00" 4 ["d"] c8_intent c8_storage).1.mem_l2 = none := by
  refine ⟨by decide, by decide, by decide, by decide, by decide⟩

theorem drain_fail_requeues_front (msg timeStr : String) (now : Nat) (dd : FPath) (i : Intent)
    (f t : Nat) (rest : List Intent) (att : List (Nat × Nat)) (st' : Storage)
    (hlt : attempts_get att i.id + 1 < INTENT_REQUEUE_ATTEMPTS) :
    run_beat_drain (fun _ _ _ => .error msg) timeStr now dd (f + 1) t ⟨i :: rest⟩ att st' =
      ⟨(run_beat_drain (fun _ _ _ => .error msg) timeStr now dd f (t + 1)
          ((⟨rest⟩ : IntentQueue).push_front i)
          (attempts_set att i.id (attempts_get att i.id + 1)) st').queue,
        (run_beat_drain (fun _ _ _ => .error msg) timeStr now dd f (t + 1)
          ((⟨rest⟩ : IntentQueue).push_front i)
          (attempts_set att i.id (attempts_get att i.id + 1)) st').attempts,
        (run_beat_drain (fun _ _ _ => .error msg) timeStr now dd f (t + 1)
          ((⟨rest⟩ : IntentQueue).push_front i)
          (attempts_set att i.id (attempts_get att i.id + 1)) st').storage,
        DrainEvent.requeued i.id ::
          (run_beat_drain (fun _ _ _ => .error msg) timeStr now dd f (t + 1)
            ((⟨rest⟩ : IntentQueue).push_front i)
            (attempts_set att i.id (attempts_get att i.id + 1)) st').events⟩ := by
  have hnot : ¬(attempts_get att i.id + 1 ≥ INTENT_REQUEUE_ATTEMPTS) := by omega
  simp only [run_beat_drain, IntentQueue.pop_next]
  simp [process_intent, hnot]

/-- Claim C2: within one drain pass, with a reasoning collaborator that
always fails, an intent is popped and re-pushed onto the front of the queue
after its 1st and 2nd failures; on its 3rd failure its file is relocated to
the "failed" directory and the intent is dropped — the queue ends empty, so
it is never pushed back a 3rd (let alone 4th) time; and in general a
failure with fewer than 3 recorded failures pushes the intent back onto the
front of the queue. -/
theorem C2_three_failures_quarantine_and_drop :
    ∀ (dd : FPath) (i : Intent) (name msg timeStr : String) (now tick : Nat) (st : Storage)
      (fuel : Nat),
      i.storage_path = some (queue_dir dd ++ [name]) →
      fsHasPath st.fs (queue_dir dd ++ [name]) = true →
      (∃ fs2,
        run_beat_drain (fun _ _ _ => .error msg) timeStr now dd (fuel + 4) tick ⟨[i]⟩ [] st =
          ⟨⟨[]⟩, [], { st with fs := fs2 },
            [DrainEvent.requeued i.id, DrainEvent.requeued i.id,
             DrainEvent.quarantined i.id]⟩ ∧
        fsHasPath fs2 (failed_dir dd ++ [name]) = true) ∧
      (∀ (f t : Nat) (rest : List Intent) (att : List (Nat × Nat)) (st' : Storage),
        attempts_get att i.id + 1 < INTENT_REQUEUE_ATTEMPTS →
        run_beat_drain (fun _ _ _ => .error msg) timeStr now dd (f + 1) t ⟨i :: rest⟩ att st' =
          ⟨(run_beat_drain (fun _ _ _ => .error msg) timeStr now dd f (t + 1)
              ((⟨rest⟩ : IntentQueue).push_front i)
              (attempts_set att i.id (attempts_get att i.id + 1)) st').queue,
            (run_beat_drain (fun _ _ _ => .error msg) timeStr now dd f (t + 1)
              ((⟨rest⟩ : IntentQueue).push_front i)
              (attempts_set att i.id (attempts_get att i.id + 1)) st').attempts,
            (run_beat_drain (fun _ _ _ => .error msg) timeStr now dd f (t + 1)
              ((⟨rest⟩ : IntentQueue).push_front i)
              (attempts_set att i.id (attempts_get att i.id + 1)) st').storage,
            DrainEvent.requeued i.id ::
              (run_beat_drain (fun _ _ _ => .error msg) timeStr now dd f (t + 1)
                ((⟨rest⟩ : IntentQueue).push_front i)
                (attempts_set att i.id (attempts_get att i.id + 1)) st').events⟩) := by
  intro dd i name msg timeStr now tick st fuel hpath hfs
  obtain ⟨fs', hr⟩ :=
    fsRename_ok_of_has st.fs (queue_dir dd ++ [name]) (failed_dir dd ++ [name]) hfs
  have hq : quarantine_failed_intent (queue_dir dd ++ [name]) dd st.fs =
      .ok (fs', failed_dir dd ++ [name]) := by
    simp [quarantine_failed_intent, List.getLast?_concat, hr]
  constructor
  · refine ⟨fs', ?_, fsHasPath_rename_dst hr⟩
    simp [run_beat_drain, IntentQueue.pop_next, IntentQueue.push_front, IntentQueue.len,
      process_intent, attempts_get, attempts_set, attempts_remove, List.lookup,
      hpath, hq, INTENT_REQUEUE_ATTEMPTS]
  · intro f t rest att st' hlt
    exact drain_fail_requeues_front msg timeStr now dd i f t rest att st' hlt

/-- Witness for C2: a concrete intent failing three times is requeued
twice, then quarantined with its file moved under `intent/queue/failed`,
leaving the queue empty. -/
theorem C2_three_failures_quarantine_and_drop_witness :
    (c2_intent.storage_path = some (queue_dir ["d"] ++ ["f.md"])) ∧
    (fsHasPath c2_storage.fs (queue_dir ["d"] ++ ["f.md"]) = true) ∧
    (∃ fs2,
      run_beat_drain (fun _ _ _ => .error "agent down") "00:00:02" 0 ["d"] (0 + 4) 0
          ⟨[c2_intent]⟩ [] c2_storage =
        ⟨⟨[]⟩, [], { c2_storage with fs := fs2 },
          [DrainEvent.requeued 41, DrainEvent.requeued 41, DrainEvent.quarantined 41]⟩ ∧
      fsHasPath fs2 (failed_dir ["d"] ++ ["f.md"]) = true) :=
  ⟨rfl, by decide,
    (C2_three_failures_quarantine_and_drop ["d"] c2_intent "f.md" "agent down" "00:00:02" 0 0
      c2_storage 0 rfl (by decide)).1⟩
